import Mathlib

/-!
Verification of the audio-slicing / musical-analysis / FX engine of the
Loop Architect repository (`app.py`, `backend/modules/slicer.py`,
`huggingface/modules/audio_analyzer.py`).

The Python source is shallowly embedded: pure numeric code becomes Lean
functions over `ℕ`/`ℤ`/`ℚ` (exact integer and rational arithmetic) or `ℝ`
(where the source computes with transcendental functions such as `sin`,
`log2` and `10**x`); Python loops become recursion; NumPy arrays become
lists.  External collaborators (librosa feature extraction, scipy
coefficient design) are abstracted as parameters at the exact boundary
where the source calls them.
-/

namespace IsoLo

/-! ## MIDI variable-length-quantity encoder (`app.py`, `encode_delta_time`) -/

/-- The `while ticks > 0` packing loop of `encode_delta_time`
(`app.py` lines 130-132): each iteration shifts the accumulated `buffer`
left one byte and ORs in the next 7-bit group with its continuation bit.
The loop is embedded with an explicit fuel argument; `vlqPackF_fuel_irrel`
below shows any fuel ≥ the loop counter gives the loop's fixpoint, so
running it with fuel = the initial counter is the loop's exact semantics. -/
def vlqPackF : Nat → Nat → Nat → Nat
  | 0, _, buffer => buffer
  | fuel + 1, ticks, buffer =>
    if 0 < ticks then
      vlqPackF fuel (ticks >>> 7) ((buffer <<< 8) ||| ((ticks &&& 127) ||| 128))
    else buffer

/-- The `while buffer > 0` byte-extraction loop of `encode_delta_time`
(`app.py` lines 137-139): repeatedly prepends the low byte of `buffer`
(Python `byte_list.insert(0, buffer & 0xFF)`) and shifts `buffer` right
by 8.  Fueled embedding, see `bytesBEF_fuel_irrel`. -/
def bytesBEF : Nat → Nat → List Nat → List Nat
  | 0, _, acc => acc
  | fuel + 1, buffer, acc =>
    if 0 < buffer then
      bytesBEF fuel (buffer >>> 8) ((buffer &&& 255) :: acc)
    else acc

/-- `encode_delta_time` (`app.py` lines 124-144), byte values as naturals. -/
def encode_delta_time (ticks0 : Nat) : List Nat :=
  let buffer := ticks0 &&& 127
  let ticks := ticks0 >>> 7
  if 0 < ticks then
    let buffer1 := buffer ||| 128
    let buffer2 := vlqPackF ticks ticks buffer1
    let buffer3 := buffer2 &&& 0xFFFFFF7F
    let byte_list := bytesBEF buffer3 buffer3 []
    if byte_list = [] then [0] else byte_list
  else [buffer]

/-- Base-128 digits of `n`, most significant first (fueled; `n` itself is
always enough fuel since the value shrinks by a factor of 128 each step). -/
def vlqDigitsF : Nat → Nat → List Nat
  | 0, n => [n]
  | fuel + 1, n => if n < 128 then [n] else vlqDigitsF fuel (n / 128) ++ [n % 128]

/-- Set the continuation bit `0x80` on every byte except the final one. -/
def setContinuationBits : List Nat → List Nat
  | [] => []
  | [d] => [d]
  | d :: ds => (d ||| 128) :: setContinuationBits ds

/-- The standard MIDI variable-length-quantity encoding, written from the
spec: base-128 groups most-significant first, 7 value bits per byte,
continuation bit `0x80` on every byte except the final one. -/
def midiVLQ (n : Nat) : List Nat :=
  setContinuationBits (vlqDigitsF n n)

/-- `vlqPackF` does not depend on the fuel once the fuel dominates the loop
counter: the loop terminates before the fuel runs out, so the fueled
embedding computes exactly the Python `while` loop. -/
theorem vlqPackF_fuel_irrel :
    ∀ f1 f2 ticks buffer, ticks ≤ f1 → ticks ≤ f2 →
      vlqPackF f1 ticks buffer = vlqPackF f2 ticks buffer := by
  intro f1
  induction f1 with
  | zero =>
    intro f2 ticks buffer h1 _
    interval_cases ticks
    cases f2 <;> simp [vlqPackF]
  | succ f ih =>
    intro f2 ticks buffer h1 h2
    match f2 with
    | 0 =>
      interval_cases ticks
      simp [vlqPackF]
    | f2' + 1 =>
      simp only [vlqPackF]
      by_cases hpos : 0 < ticks
      · simp only [hpos, if_true]
        have hshift : ticks >>> 7 ≤ ticks - 1 := by
          have : ticks >>> 7 = ticks / 2 ^ 7 := Nat.shiftRight_eq_div_pow ticks 7
          have hlt : ticks / 2 ^ 7 < ticks := Nat.div_lt_self hpos (by norm_num)
          omega
        exact ih f2' (ticks >>> 7) _ (by omega) (by omega)
      · simp [hpos]

/-- `bytesBEF` does not depend on the fuel once the fuel dominates the
remaining buffer value. -/
theorem bytesBEF_fuel_irrel :
    ∀ f1 f2 buffer acc, buffer ≤ f1 → buffer ≤ f2 →
      bytesBEF f1 buffer acc = bytesBEF f2 buffer acc := by
  intro f1
  induction f1 with
  | zero =>
    intro f2 buffer acc h1 _
    interval_cases buffer
    cases f2 <;> simp [bytesBEF]
  | succ f ih =>
    intro f2 buffer acc h1 h2
    match f2 with
    | 0 =>
      interval_cases buffer
      simp [bytesBEF]
    | f2' + 1 =>
      simp only [bytesBEF]
      by_cases hpos : 0 < buffer
      · simp only [hpos, if_true]
        have hshift : buffer >>> 8 ≤ buffer - 1 := by
          have : buffer >>> 8 = buffer / 2 ^ 8 := Nat.shiftRight_eq_div_pow buffer 8
          have hlt : buffer / 2 ^ 8 < buffer := Nat.div_lt_self hpos (by norm_num)
          omega
        exact ih f2' (buffer >>> 8) _ (by omega) (by omega)
      · simp [hpos]

/-! ## Bar-loop slicing (`app.py` lines 663-685, mirrored by
`Slicer._slice_bar_loops` in `backend/modules/slicer.py` lines 142-186) -/

/-- `beats_per_bar` selection (`app.py` lines 663-665): 4 unless the time
signature is "3/4". -/
def beats_per_bar (time_signature : String) : Nat :=
  if time_signature = "3/4" then 3 else 4

/-- `loop_duration_samples = int((60.0 / manual_bpm * beats_per_bar * bars)
* sample_rate)` (`app.py` line 670).  Python `int()` truncates toward zero,
which on the positive values arising from `bpm > 0` is the floor. -/
def loop_duration_samples (bpm : ℚ) (bpb bars sample_rate : Nat) : Nat :=
  (⌊(60 / bpm * bpb * bars) * sample_rate⌋).toNat

/-- The bar-loop slice loop (`app.py` lines 673-678): if the loop length is
positive and strictly shorter than the buffer, emit
`min(len // L, 16)` slices `[i*L, min(i*L + L, len))`; otherwise emit
nothing.  Fragments are `(start_sample, end_sample)` pairs. -/
def sliceBarLoops (len L : Nat) : List (Nat × Nat) :=
  if 0 < L ∧ L < len then
    (List.range (min (len / L) 16)).map fun i => (i * L, min (i * L + L) len)
  else []

/-- Loop length as the claim states it: `round((60/bpm) * beats_per_bar *
bars * sample_rate)`. -/
def loopDurationSamplesClaim (bpm : ℚ) (bpb bars sample_rate : Nat) : Nat :=
  (round ((60 / bpm * bpb * bars) * sample_rate : ℚ)).toNat

/-- Fragment count as the claim states it:
`min(floor(len / loop_duration_samples), 16)` with the rounded length. -/
def barLoopCountClaim (len : Nat) (bpm : ℚ) (bpb bars sample_rate : Nat) : Nat :=
  min (len / loopDurationSamplesClaim bpm bpb bars sample_rate) 16

/-- The slice loop emits exactly `min(len / L, 16)` fragments, each exactly
`[i*L, i*L + L)`, whenever `0 < L < len`, and nothing otherwise: the `min`
with `len` in the source's `end_sample` never truncates because
`(i+1)*L ≤ (len/L)*L ≤ len` for every emitted index. -/
theorem sliceBarLoops_eq (len L : Nat) :
    sliceBarLoops len L =
      (List.range (if 0 < L ∧ L < len then min (len / L) 16 else 0)).map
        fun i => (i * L, i * L + L) := by
  unfold sliceBarLoops
  by_cases h : 0 < L ∧ L < len
  · simp only [h, if_true]
    apply List.map_congr_left
    intro i hi
    have hi' : i < len / L := lt_of_lt_of_le (List.mem_range.mp hi) (min_le_left _ _)
    have h1 : (i + 1) * L ≤ len / L * L :=
      Nat.mul_le_mul_right L (Nat.succ_le_of_lt hi')
    have h2 : len / L * L ≤ len := Nat.div_mul_le_self len L
    have h3 : i * L + L ≤ len := by
      have := le_trans h1 h2
      simpa [Nat.succ_mul] using this
    simp [Nat.min_eq_left h3]
  · simp [h]

/-- **C1** (counterexample): at sample_rate 10, bpm 90, 4/4, 1-bar loops and
a 53-sample buffer, the source truncates the loop length to
`int(60/90*4*1*10) = 26` and emits 2 fragments, while the claim's rounded
length `round(80/3) = 27` predicts `min(floor(53/27), 16) = 1` fragment. -/
theorem c1_bar_loop_count_counterexample :
    (sliceBarLoops 53 (loop_duration_samples 90 (beats_per_bar "4/4") 1 10)).length = 2 ∧
    barLoopCountClaim 53 90 (beats_per_bar "4/4") 1 10 = 1 ∧
    (sliceBarLoops 53 (loop_duration_samples 90 (beats_per_bar "4/4") 1 10)).length ≠
      barLoopCountClaim 53 90 (beats_per_bar "4/4") 1 10 := by
  have hb : beats_per_bar "4/4" = 4 := by decide
  have hL : loop_duration_samples 90 (beats_per_bar "4/4") 1 10 = 26 := by
    rw [hb]
    unfold loop_duration_samples
    norm_num
    rfl
  have hC : loopDurationSamplesClaim 90 (beats_per_bar "4/4") 1 10 = 27 := by
    rw [hb]
    unfold loopDurationSamplesClaim
    norm_num [round_eq]
    rfl
  refine ⟨?_, ?_, ?_⟩
  · rw [hL]; decide
  · unfold barLoopCountClaim; rw [hC]; decide
  · rw [hL]
    unfold barLoopCountClaim
    rw [hC]
    decide

/-- **C1** (amended): in bar-loop mode, for every bpm > 0, bar count in
{1,2,4} and time signature, with `L = trunc((60/bpm) * beats_per_bar * bars
* sample_rate)` (integer truncation, not rounding), the emitted fragments
are the consecutive non-overlapping slices `[i*L, i*L + L)` for
`i < min(floor(len / L), 16)` starting at sample 0 — a trailing partial
loop is dropped — provided `0 < L` and `len > L` strictly; when `len ≤ L`
(including a buffer of exactly one loop length, `len = L`) no fragment is
emitted. -/
theorem c1_bar_loop_slices (bpm : ℚ) (ts : String) (bars sample_rate len : Nat)
    (hbpm : 0 < bpm) (hbars : bars = 1 ∨ bars = 2 ∨ bars = 4) :
    sliceBarLoops len (loop_duration_samples bpm (beats_per_bar ts) bars sample_rate) =
      (List.range
          (if 0 < loop_duration_samples bpm (beats_per_bar ts) bars sample_rate ∧
              loop_duration_samples bpm (beats_per_bar ts) bars sample_rate < len then
            min (len / loop_duration_samples bpm (beats_per_bar ts) bars sample_rate) 16
          else 0)).map
        fun i =>
          (i * loop_duration_samples bpm (beats_per_bar ts) bars sample_rate,
           i * loop_duration_samples bpm (beats_per_bar ts) bars sample_rate +
             loop_duration_samples bpm (beats_per_bar ts) bars sample_rate) :=
  sliceBarLoops_eq len _

/-- **C1** witness: bpm 120, 4/4, 1-bar loops, sample_rate 10, 45-sample
buffer: `L = 20` and exactly the two full slices `[0,20)` and `[20,40)`
come out; the trailing 5 samples are dropped. -/
theorem c1_bar_loop_slices_witness :
    (0 : ℚ) < 120 ∧ (1 = 1 ∨ 1 = 2 ∨ 1 = 4) ∧
    sliceBarLoops 45 (loop_duration_samples 120 (beats_per_bar "4/4") 1 10) =
      [(0, 20), (20, 40)] := by
  refine ⟨by norm_num, Or.inl rfl, ?_⟩
  rw [c1_bar_loop_slices 120 "4/4" 1 10 45 (by norm_num) (Or.inl rfl)]
  have hb : beats_per_bar "4/4" = 4 := by decide
  have hL : loop_duration_samples 120 (beats_per_bar "4/4") 1 10 = 20 := by
    rw [hb]
    unfold loop_duration_samples
    norm_num
    rfl
  rw [hL]
  decide

/-! ## Crossfade (`app.py` lines 344-369, `apply_crossfade`) -/

/-- `np.linspace(0, 1, f)[i]`: the linear fade-in ramp.  For `f ≥ 2` the
entries are `i / (f - 1)`; NumPy gives `[0.0]` for `f = 1`. -/
def linspace01 (f i : Nat) : ℚ :=
  if f ≤ 1 then 0 else (i : ℚ) / ((f : ℚ) - 1)

/-- `np.linspace(1, 0, f)[i]`: the linear fade-out ramp.  For `f ≥ 2` the
entries are `1 - i / (f - 1)`; NumPy gives `[1.0]` for `f = 1`. -/
def linspace10 (f i : Nat) : ℚ :=
  if f ≤ 1 then 1 else 1 - (i : ℚ) / ((f : ℚ) - 1)

/-- `apply_crossfade` (`app.py` lines 344-369), one channel (the source
applies the same per-sample scaling to each channel).  The source copies
the input (`y_out = y.copy()`) and multiplies the first `f` samples by the
fade-in ramp and the last `f` samples (`y_out[-f:]`, indices `≥ N - f`) by
the fade-out ramp, where `f = min(fade_samples, N // 2)`; a zero fade
request, or a clip too short to fade, returns the input as is. -/
def apply_crossfade (y : List ℚ) (fade_samples : Nat) : List ℚ :=
  if fade_samples = 0 then y
  else
    let N := y.length
    let f := min fade_samples (N / 2)
    if f = 0 then y
    else
      let y1 := y.mapIdx fun i s => if i < f then s * linspace01 f i else s
      y1.mapIdx fun i s => if N - f ≤ i then s * linspace10 f (i - (N - f)) else s

/-- Index lookup through `List.mapIdx`. -/
theorem mapIdx_getElem? {α β : Type} (l : List α) (f : ℕ → α → β) (i : ℕ) :
    (l.mapIdx f)[i]? = (l[i]?).map (f i) := by
  rcases lt_or_ge i l.length with h | h
  · rw [List.getElem?_eq_getElem (by simpa using h), List.getElem?_eq_getElem h]
    simp [List.getElem_mapIdx]
  · rw [List.getElem?_eq_none (by simpa using h), List.getElem?_eq_none h]
    rfl

/-- **C10**: `apply_crossfade` is length-preserving; with
`f = min(fade_samples, N // 2)` every output sample at an index in
`[f, N - f)` is identical to the corresponding input sample, and the first
`f` and last `f` samples are exactly the input rescaled by the linear
ramps.  (The source writes only into the copy `y_out`, never into its
input; in this pure embedding that shows up as the output being a function
of the unchanged input.) -/
theorem c10_crossfade_pure_frame (y : List ℚ) (fade_samples : Nat) (i : Nat)
    (hlo : min fade_samples (y.length / 2) ≤ i)
    (hhi : i < y.length - min fade_samples (y.length / 2)) :
    (apply_crossfade y fade_samples).length = y.length ∧
    (apply_crossfade y fade_samples)[i]? = y[i]? ∧
    (∀ j, j < min fade_samples (y.length / 2) →
      (apply_crossfade y fade_samples)[j]? =
        (y[j]?).map (· * linspace01 (min fade_samples (y.length / 2)) j)) ∧
    (∀ j, y.length - min fade_samples (y.length / 2) ≤ j → j < y.length →
      (apply_crossfade y fade_samples)[j]? =
        (y[j]?).map
          (· * linspace10 (min fade_samples (y.length / 2))
            (j - (y.length - min fade_samples (y.length / 2))))) := by
  by_cases h0 : fade_samples = 0
  · subst h0
    rw [Nat.zero_min] at hlo hhi ⊢
    simp only [apply_crossfade, if_true]
    refine ⟨by simp, by simp, ?_, ?_⟩
    · intro j hj
      exact absurd hj (Nat.not_lt_zero j)
    · intro j hj hj'
      exact absurd hj' (by omega)
  · simp only [apply_crossfade, h0, if_false]
    set f := min fade_samples (y.length / 2) with hf
    by_cases hfz : f = 0
    · rw [if_pos hfz]
      rw [hfz] at hlo hhi ⊢
      refine ⟨rfl, rfl, ?_, ?_⟩
      · intro j hj
        exact absurd hj (Nat.not_lt_zero j)
      · intro j hj hj'
        exact absurd hj' (by omega)
    · rw [if_neg hfz]
      have hf2 : f ≤ y.length / 2 := min_le_right _ _
      have hff : f + f ≤ y.length := by omega
      refine ⟨by simp [List.length_mapIdx], ?_, ?_, ?_⟩
      · rw [mapIdx_getElem?, mapIdx_getElem?]
        have h1 : ¬ i < f := by omega
        have h2 : ¬ y.length - f ≤ i := by omega
        cases y[i]? <;> simp [h1, h2]
      · intro j hj
        rw [mapIdx_getElem?, mapIdx_getElem?]
        have h2 : ¬ y.length - f ≤ j := by omega
        cases y[j]? <;> simp [hj, h2]
      · intro j hj hj'
        rw [mapIdx_getElem?, mapIdx_getElem?]
        have h1 : ¬ j < f := by omega
        cases y[j]? <;> simp [hj, h1]

/-- **C10** witness: on the 6-sample clip `[1,2,3,4,5,6]` with a 2-sample
fade, the middle sample at index 2 passes through bit-identically. -/
theorem c10_crossfade_pure_frame_witness :
    min 2 ([(1 : ℚ), 2, 3, 4, 5, 6].length / 2) ≤ 2 ∧
    2 < [(1 : ℚ), 2, 3, 4, 5, 6].length - min 2 ([(1 : ℚ), 2, 3, 4, 5, 6].length / 2) ∧
    (apply_crossfade [(1 : ℚ), 2, 3, 4, 5, 6] 2).length = 6 ∧
    (apply_crossfade [(1 : ℚ), 2, 3, 4, 5, 6] 2)[2]? = some 3 := by
  obtain ⟨hlen, hmid, -, -⟩ :=
    c10_crossfade_pure_frame [(1 : ℚ), 2, 3, 4, 5, 6] 2 2 (by decide) (by decide)
  refine ⟨by decide, by decide, by simpa using hlen, ?_⟩
  rw [hmid]
  decide

/-! ## Camelot wheel and harmonic recommendations
(`app.py` lines 24-43 and 146-169) -/

/-- `KEY_TO_CAMELOT` (`app.py` lines 24-33), including the enharmonic
equivalents. -/
def KEY_TO_CAMELOT : List (String × String) := [
  ("C Maj", "8B"), ("G Maj", "9B"), ("D Maj", "10B"), ("A Maj", "11B"), ("E Maj", "12B"),
  ("B Maj", "1B"), ("F# Maj", "2B"), ("Db Maj", "3B"), ("Ab Maj", "4B"), ("Eb Maj", "5B"),
  ("Bb Maj", "6B"), ("F Maj", "7B"),
  ("A Min", "8A"), ("E Min", "9A"), ("B Min", "10A"), ("F# Min", "11A"), ("C# Min", "12A"),
  ("G# Min", "1A"), ("D# Min", "2A"), ("Bb Min", "3A"), ("F Min", "4A"), ("C Min", "5A"),
  ("G Min", "6A"), ("D Min", "7A"),
  ("Gb Maj", "2B"), ("Cb Maj", "7B"), ("A# Min", "3A"), ("D# Maj", "5B"), ("G# Maj", "4B")]

/-- `CAMELOT_TO_KEY` (`app.py` lines 36-43): the fixed reverse map, keeping
enharmonic pairs together. -/
def CAMELOT_TO_KEY : List (String × String) := [
  ("8B", "C Maj"), ("9B", "G Maj"), ("10B", "D Maj"), ("11B", "A Maj"), ("12B", "E Maj"),
  ("1B", "B Maj"), ("2B", "F# Maj / Gb Maj"), ("3B", "Db Maj"), ("4B", "Ab Maj / G# Maj"),
  ("5B", "Eb Maj / D# Maj"), ("6B", "Bb Maj"), ("7B", "F Maj / Cb Maj"),
  ("8A", "A Min"), ("9A", "E Min"), ("10A", "B Min"), ("11A", "F# Min"), ("12A", "C# Min"),
  ("1A", "G# Min"), ("2A", "D# Min"), ("3A", "Bb Min / A# Min"), ("4A", "F Min"), ("5A", "C Min"),
  ("6A", "G Min"), ("7A", "D Min")]

/-- Python `dict.get(k)` on an association list (key order is irrelevant:
both dictionaries have distinct keys). -/
def dictGet (m : List (String × String)) (k : String) : Option String :=
  (m.find? fun p => p.1 == k).map Prod.snd

/-- Decimal-digit parse, accumulating most-significant first — the
behaviour of Python `int(s)` on the digit strings arising here (`int`
raises on a non-digit character or on the empty string, modelled by
`none`). -/
def strDigitsAux : List Char → Nat → Option Nat
  | [], acc => some acc
  | c :: cs, acc => if c.isDigit then strDigitsAux cs (acc * 10 + (c.toNat - 48)) else none

/-- See `strDigitsAux`; Python `int('')` raises. -/
def strDigits? (cs : List Char) : Option Nat :=
  if cs.isEmpty then none else strDigitsAux cs 0

/-- `num = int(code[:-1]); mode = code[-1]` (`app.py` lines 153-154),
with the `try`/`except` of the source modelled by `Option`: `none` exactly
when `int(code[:-1])` raises. -/
def parseCamelot (code : String) : Option (Nat × Char) :=
  match code.data.reverse with
  | [] => none
  | m :: rest => (strDigits? rest.reverse).map fun n => (n, m)

/-- One-character string (Python f-string interpolation of a character). -/
def charStr (c : Char) : String := ⟨[c]⟩

/-- `get_harmonic_recommendations` (`app.py` lines 146-169). -/
def get_harmonic_recommendations (key_str : String) : String :=
  let code := (dictGet KEY_TO_CAMELOT key_str).getD "N/A"
  if code = "N/A" then "N/A (Key not recognized or \x27Unknown Key\x27 detected.)"
  else
    match parseCamelot code with
    | none => "N/A (Error calculating recommendations.)"
    | some (num, mode) =>
      let opposite_mode := if mode = 'A' then 'B' else 'A'
      let num_plus_one := num % 12 + 1
      let num_minus_one := if num = 1 then 12 else num - 1
      let recs_codes := [Nat.repr num ++ charStr opposite_mode,
                         Nat.repr num_plus_one ++ charStr mode,
                         Nat.repr num_minus_one ++ charStr mode]
      let rec_keys := recs_codes.map fun r =>
        (dictGet CAMELOT_TO_KEY r).getD ("Code " ++ r) ++ " (" ++ r ++ ")"
      String.intercalate " | " rec_keys

/-- The relative key's code as the claim words it: same number, opposite
mode. -/
def camelotRelative (num : Nat) (mode : Char) : String :=
  Nat.repr num ++ charStr (if mode = 'A' then 'B' else 'A')

/-- Next code as the claim words it: number + 1, wrapping 12 to 1, same
mode (the source computes `num % 12 + 1`). -/
def camelotPlusOne (num : Nat) (mode : Char) : String :=
  Nat.repr (if num = 12 then 1 else num + 1) ++ charStr mode

/-- Previous code as the claim words it: number − 1, wrapping 1 to 12,
same mode. -/
def camelotMinusOne (num : Nat) (mode : Char) : String :=
  Nat.repr (if num = 1 then 12 else num - 1) ++ charStr mode

/-- The source's rendering of one recommended code: display name from the
reverse map (with a `Code <c>` fallback) followed by the code in
parentheses. -/
def renderCode (r : String) : String :=
  (dictGet CAMELOT_TO_KEY r).getD ("Code " ++ r) ++ " (" ++ r ++ ")"

/-- All 24 Camelot codes `{1..12} × {A,B}`. -/
def allCamelotCodes : List String :=
  ((List.range 12).map fun n => Nat.repr (n + 1) ++ "A") ++
    ((List.range 12).map fun n => Nat.repr (n + 1) ++ "B")

/-- The claim's per-key property, decidably: the key's code parses, the
relative (same-number, opposite-mode) code resolves to a non-empty display
name, and the output is exactly the three claimed codes rendered in order,
opening with the relative key's display name. -/
def c7KeyOk (k c : String) : Bool :=
  match parseCamelot c with
  | none => false
  | some (num, mode) =>
    match dictGet CAMELOT_TO_KEY (camelotRelative num mode) with
    | none => false
    | some relName =>
      (!relName.isEmpty) &&
      (get_harmonic_recommendations k ==
        relName ++ " (" ++ camelotRelative num mode ++ ")" ++ " | " ++
          renderCode (camelotPlusOne num mode) ++ " | " ++
          renderCode (camelotMinusOne num mode))

/-- The claim's per-code property, decidably: the code resolves through
the reverse map to a non-empty display name. -/
def c7CodeOk (code : String) : Bool :=
  (dictGet CAMELOT_TO_KEY code).any fun n => !n.isEmpty

/-- **C7**: for every key in the key-to-Camelot map the recommendation
string is exactly the three codes {same number/opposite mode, number+1
wrapping 12 to 1, number−1 wrapping 1 to 12} rendered via the reverse map,
and it opens with the relative key's (non-empty) display name; every code
in {1..12}×{A,B} resolves to a non-empty display name; an unmapped key
string returns the sentinel string (the embedding is total — nothing is
thrown). -/
theorem c7_harmonic_recommendations :
    (∀ p ∈ KEY_TO_CAMELOT, c7KeyOk p.1 p.2 = true) ∧
    (∀ code ∈ allCamelotCodes, c7CodeOk code = true) ∧
    (∀ s, dictGet KEY_TO_CAMELOT s = none →
      get_harmonic_recommendations s =
        "N/A (Key not recognized or \x27Unknown Key\x27 detected.)") := by
  refine ⟨by decide, by decide, ?_⟩
  intro s h
  simp [get_harmonic_recommendations, h]

/-- **C7** witness: the map entry "C Maj" ↦ "8B", the code "3A", and the
unknown key "H Maj" instantiate the three parts. -/
theorem c7_harmonic_recommendations_witness :
    ("C Maj", "8B") ∈ KEY_TO_CAMELOT ∧ c7KeyOk "C Maj" "8B" = true ∧
    "3A" ∈ allCamelotCodes ∧ c7CodeOk "3A" = true ∧
    dictGet KEY_TO_CAMELOT "H Maj" = none ∧
    get_harmonic_recommendations "H Maj" =
      "N/A (Key not recognized or \x27Unknown Key\x27 detected.)" := by
  obtain ⟨h1, h2, h3⟩ := c7_harmonic_recommendations
  exact ⟨by decide, h1 ("C Maj", "8B") (by decide), by decide,
    h2 "3A" (by decide), by decide, h3 "H Maj" (by decide)⟩

/-! ## Key detection (`app.py` lines 171-205 `detect_key`, identical logic
in `AudioAnalyzer._detect_key`).  The `librosa.feature.chroma_stft` call is
the external boundary: the embedding starts from the summed 12-bin chroma
vector `chroma_sums` the source computes from it. -/

/-- Krumhansl-Schmuckler major template (`app.py` line 184); the decimal
literals are exact rationals. -/
def major_template : List ℚ :=
  [6.35, 2.23, 3.48, 2.33, 4.38, 4.09, 2.52, 5.19, 2.39, 3.66, 2.29, 2.88]

/-- Krumhansl-Schmuckler minor template (`app.py` line 185). -/
def minor_template : List ℚ :=
  [6.33, 2.68, 3.52, 5.38, 2.60, 3.53, 2.54, 4.75, 3.98, 2.69, 3.34, 3.17]

/-- `template /= np.sum(template)`: L1 normalization. -/
def normalizeL1 (l : List ℚ) : List ℚ := l.map (· / l.sum)

/-- `np.roll(l, i)` on a 12-vector: entry `j` of the result is entry
`(j - i) mod 12` of `l`. -/
def roll12 (l : List ℚ) (i : Nat) : List ℚ :=
  (List.range 12).map fun j => l.getD ((j + 12 - i % 12) % 12) 0

/-- `np.dot` on (equal-length) vectors. -/
def dotQ (a b : List ℚ) : ℚ := ((a.zip b).map fun p => p.1 * p.2).sum

/-- `chroma_norm = chroma_sums / np.sum(chroma_sums)` (`app.py` line 181). -/
def chromaNorm (chroma_sums : List ℚ) : List ℚ :=
  chroma_sums.map (· / chroma_sums.sum)

/-- `pitch_classes` (`app.py` line 191). -/
def pitch_classes : List String :=
  ["C", "C#", "D", "D#"] ++ ["E", "F", "F#", "G"] ++ ["G#", "A", "A#", "B"]

/-- `np.argmax` on a list: first index of the maximum (a later element
replaces the running best only when strictly larger). -/
def argmaxAux : List ℚ → Nat → Nat → ℚ → Nat
  | [], _, best, _ => best
  | x :: xs, i, best, bv =>
    if bv < x then argmaxAux xs (i + 1) i x else argmaxAux xs (i + 1) best bv

/-- `np.argmax` (returns 0 on the empty list, which never arises here). -/
def argmaxList : List ℚ → Nat
  | [] => 0
  | x :: xs => argmaxAux xs 1 0 x

/-- `major_correlations` (`app.py` line 193): dot products of the
normalized chroma against all 12 rotations of the normalized major
template. -/
def majorCorrsOf (chroma_sums : List ℚ) : List ℚ :=
  (List.range 12).map fun i =>
    dotQ (chromaNorm chroma_sums) (roll12 (normalizeL1 major_template) i)

/-- `minor_correlations` (`app.py` line 196). -/
def minorCorrsOf (chroma_sums : List ℚ) : List ℚ :=
  (List.range 12).map fun i =>
    dotQ (chromaNorm chroma_sums) (roll12 (normalizeL1 minor_template) i)

/-- `detect_key` (`app.py` lines 171-205) from the summed chroma vector
down: silence guard, correlation against both template families, and the
final strict comparison `major > minor` deciding the mode. -/
def detect_key (chroma_sums : List ℚ) : String :=
  if chroma_sums.sum = 0 then "Unknown Key"
  else
    let majorCorrs := majorCorrsOf chroma_sums
    let best_major_index := argmaxList majorCorrs
    let minorCorrs := minorCorrsOf chroma_sums
    let best_minor_index := argmaxList minorCorrs
    if minorCorrs.getD best_minor_index 0 < majorCorrs.getD best_major_index 0 then
      pitch_classes.getD best_major_index "" ++ " Maj"
    else
      pitch_classes.getD best_minor_index "" ++ " Min"

/-- Invariant of the `argmaxAux` scan: if the accumulator value dominates
the first `i` entries of the ambient list `l` and `xs` is the rest of `l`,
the returned index's entry dominates all of `l`. -/
theorem argmaxAux_ge :
    ∀ (xs l : List ℚ) (i best : Nat) (bv : ℚ),
      l.length = i + xs.length →
      (∀ k, k < xs.length → l.getD (i + k) 0 = xs.getD k 0) →
      l.getD best 0 = bv →
      (∀ j, j < i → l.getD j 0 ≤ bv) →
      ∀ j, j < l.length → l.getD j 0 ≤ l.getD (argmaxAux xs i best bv) 0 := by
  intro xs
  induction xs with
  | nil =>
    intro l i best bv hlen _ hbest hpre j hj
    simp only [argmaxAux]
    rw [hbest]
    exact hpre j (by simpa using hj.trans_le (le_of_eq hlen))
  | cons x xs ih =>
    intro l i best bv hlen hcorr hbest hpre j hj
    simp only [argmaxAux]
    by_cases hx : bv < x
    · rw [if_pos hx]
      refine ih l (i + 1) i x (by simp only [List.length_cons] at hlen; omega) ?_ ?_ ?_ j hj
      · intro k hk
        have := hcorr (k + 1) (by simpa using Nat.succ_lt_succ hk)
        simpa [Nat.add_assoc, Nat.add_comm 1 k] using this
      · have h0 := hcorr 0 (Nat.succ_pos _)
        simp only [Nat.add_zero, List.getD_cons_zero] at h0
        exact h0
      · intro j' hj'
        rcases Nat.lt_succ_iff_lt_or_eq.mp hj' with h | h
        · exact (hpre j' h).trans (le_of_lt hx)
        · subst h
          have h0 := hcorr 0 (Nat.succ_pos _)
          simp only [Nat.add_zero, List.getD_cons_zero] at h0
          rw [h0]
    · rw [if_neg hx]
      refine ih l (i + 1) best bv (by simp only [List.length_cons] at hlen; omega) ?_ hbest ?_ j hj
      · intro k hk
        have := hcorr (k + 1) (by simpa using Nat.succ_lt_succ hk)
        simpa [Nat.add_assoc, Nat.add_comm 1 k] using this
      · intro j' hj'
        rcases Nat.lt_succ_iff_lt_or_eq.mp hj' with h | h
        · exact hpre j' h
        · subst h
          have h0 := hcorr 0 (Nat.succ_pos _)
          simp only [Nat.add_zero, List.getD_cons_zero] at h0
          rw [h0]
          exact le_of_not_lt hx

/-- `np.argmax` correctness: the entry at the returned index dominates
every entry of the list. -/
theorem argmaxList_ge (l : List ℚ) :
    ∀ j, j < l.length → l.getD j 0 ≤ l.getD (argmaxList l) 0 := by
  match l with
  | [] => intro j hj; simp at hj
  | x :: xs =>
    intro j hj
    simp only [argmaxList]
    refine argmaxAux_ge xs (x :: xs) 1 0 x (by simp [Nat.add_comm]) ?_ (by simp) ?_ j hj
    · intro k hk
      simp [Nat.add_comm 1 k]
    · intro j' hj'
      interval_cases j'
      simp

/-- On the uniform chroma vector every major correlation is `1/12`: the
normalized chroma is constant `1/12` and each rotated normalized template
still sums to 1. -/
theorem uniformMajorCorrs :
    majorCorrsOf (List.replicate 12 1) = List.replicate 12 (1/12 : ℚ) := by
  norm_num [majorCorrsOf, chromaNorm, dotQ, roll12, normalizeL1, major_template,
    List.range_succ, List.replicate_succ]

/-- On the uniform chroma vector every minor correlation is `1/12`. -/
theorem uniformMinorCorrs :
    minorCorrsOf (List.replicate 12 1) = List.replicate 12 (1/12 : ℚ) := by
  norm_num [minorCorrsOf, chromaNorm, dotQ, roll12, normalizeL1, minor_template,
    List.range_succ, List.replicate_succ]

/-- `np.argmax` of a constant vector is its first index. -/
theorem argmaxList_uniform : argmaxList (List.replicate 12 (1/12 : ℚ)) = 0 := by
  norm_num [List.replicate_succ, argmaxList, argmaxAux]

/-- The uniform chroma vector sums to 12 (so the silence guard passes). -/
theorem uniformChromaSum : (List.replicate 12 (1 : ℚ)).sum = 12 := by
  simp [List.sum_replicate]
  norm_num

/-- **C3** (counterexample): on the uniform chroma vector the best major
and best minor correlations are exactly equal (both `1/12`), yet
`detect_key` returns "C Min", not the major key the claim's tie-break
predicts: the source's strict `>` sends ties to minor. -/
theorem c3_tie_goes_to_minor_counterexample :
    (majorCorrsOf (List.replicate 12 1)).getD
        (argmaxList (majorCorrsOf (List.replicate 12 1))) 0 =
      (minorCorrsOf (List.replicate 12 1)).getD
        (argmaxList (minorCorrsOf (List.replicate 12 1))) 0 ∧
    detect_key (List.replicate 12 1) = "C Min" ∧
    detect_key (List.replicate 12 1) ≠
      pitch_classes.getD (argmaxList (majorCorrsOf (List.replicate 12 1))) "" ++ " Maj" := by
  have hkey : detect_key (List.replicate 12 1) = "C Min" := by
    simp only [detect_key]
    rw [if_neg (by rw [uniformChromaSum]; norm_num)]
    simp only [uniformMajorCorrs, uniformMinorCorrs, argmaxList_uniform]
    rw [if_neg (by norm_num)]
    rfl
  refine ⟨by rw [uniformMajorCorrs, uniformMinorCorrs], hkey, ?_⟩
  rw [hkey, uniformMajorCorrs, argmaxList_uniform]
  decide

/-- **C3** (amended): for every chroma vector with non-zero total energy,
`detect_key` returns the root of the best-correlated rotation of the
winning profile — the entry at `np.argmax` dominates all 12 correlations
of its family — and the major key is returned exactly when the best major
correlation is strictly greater than the best minor one; on equality
(the tie) the minor key is returned. -/
theorem c3_detect_key_argmax (chroma : List ℚ) (hsum : chroma.sum ≠ 0) :
    ((minorCorrsOf chroma).getD (argmaxList (minorCorrsOf chroma)) 0 <
        (majorCorrsOf chroma).getD (argmaxList (majorCorrsOf chroma)) 0 →
      detect_key chroma =
        pitch_classes.getD (argmaxList (majorCorrsOf chroma)) "" ++ " Maj") ∧
    ((majorCorrsOf chroma).getD (argmaxList (majorCorrsOf chroma)) 0 ≤
        (minorCorrsOf chroma).getD (argmaxList (minorCorrsOf chroma)) 0 →
      detect_key chroma =
        pitch_classes.getD (argmaxList (minorCorrsOf chroma)) "" ++ " Min") ∧
    (∀ j, j < 12 → (majorCorrsOf chroma).getD j 0 ≤
      (majorCorrsOf chroma).getD (argmaxList (majorCorrsOf chroma)) 0) ∧
    (∀ j, j < 12 → (minorCorrsOf chroma).getD j 0 ≤
      (minorCorrsOf chroma).getD (argmaxList (minorCorrsOf chroma)) 0) := by
  refine ⟨?_, ?_, ?_, ?_⟩
  · intro h
    simp only [detect_key]
    rw [if_neg hsum, if_pos h]
  · intro h
    simp only [detect_key]
    rw [if_neg hsum, if_neg (not_lt.mpr h)]
  · intro j hj
    have hlen : (majorCorrsOf chroma).length = 12 := by simp [majorCorrsOf]
    exact argmaxList_ge _ j (by rw [hlen]; exact hj)
  · intro j hj
    have hlen : (minorCorrsOf chroma).length = 12 := by simp [minorCorrsOf]
    exact argmaxList_ge _ j (by rw [hlen]; exact hj)

/-- **C3** witness: the uniform chroma vector has non-zero energy and best
major ≤ best minor (they are equal), and the theorem then pins the result
to "C Min". -/
theorem c3_detect_key_argmax_witness :
    (List.replicate 12 (1 : ℚ)).sum ≠ 0 ∧
    (majorCorrsOf (List.replicate 12 1)).getD
        (argmaxList (majorCorrsOf (List.replicate 12 1))) 0 ≤
      (minorCorrsOf (List.replicate 12 1)).getD
        (argmaxList (minorCorrsOf (List.replicate 12 1))) 0 ∧
    detect_key (List.replicate 12 1) = "C Min" := by
  have hsum : (List.replicate 12 (1 : ℚ)).sum ≠ 0 := by
    rw [uniformChromaSum]; norm_num
  have htie : (majorCorrsOf (List.replicate 12 1)).getD
      (argmaxList (majorCorrsOf (List.replicate 12 1))) 0 ≤
      (minorCorrsOf (List.replicate 12 1)).getD
        (argmaxList (minorCorrsOf (List.replicate 12 1))) 0 :=
    le_of_eq (by rw [uniformMajorCorrs, uniformMinorCorrs])
  have h := (c3_detect_key_argmax (List.replicate 12 1) hsum).2.1 htie
  refine ⟨hsum, htie, ?_⟩
  rw [h, uniformMinorCorrs, argmaxList_uniform]
  decide

/-! ## Peak normalization (`app.py` lines 256-272,
`apply_normalization_dbfs`) -/

/-- `np.max(np.abs(y))`: the peak absolute sample (0 for an empty buffer,
which the caller excludes before this stage). -/
def peakAmp (y : List ℝ) : ℝ := (y.map fun s => |s|).foldr max 0

/-- `apply_normalization_dbfs` (`app.py` lines 256-272): targets at or
above 0 dBFS are the off sentinel; near-silent buffers (peak below 1e-9)
are passed through; otherwise scale by `10^(target/20) / peak` and
hard-clip to `[-1, 1]` (`np.clip`). -/
noncomputable def apply_normalization_dbfs (y : List ℝ) (target_dbfs : ℝ) : List ℝ :=
  if 0 ≤ target_dbfs then y
  else if peakAmp y < 1e-9 then y
  else
    y.map fun s => max (-1) (min 1 (s * ((10 : ℝ) ^ (target_dbfs / 20) / peakAmp y)))

/-- The claim's three-case description of peak normalization, written from
the claim's own words (target ≥ 0 is a no-op; peak at or above the 1e-9
floor normalizes and clips; peak below the floor passes through). -/
noncomputable def normalizeDbfsClaim (y : List ℝ) (target_dbfs : ℝ) : List ℝ :=
  if 0 ≤ target_dbfs then y
  else if 1e-9 ≤ peakAmp y then
    y.map fun s => max (-1) (min 1 (s * ((10 : ℝ) ^ (target_dbfs / 20) / peakAmp y)))
  else y

/-- **C6**: `apply_normalization_dbfs` agrees with the claim's case
analysis on every buffer and every target: targets ≥ 0 return the input
unchanged, a peak at or above 1e-9 gives `clip(y * 10^(t/20)/peak, -1, 1)`,
and a peak below 1e-9 returns the input unchanged. -/
theorem c6_normalization_cases (y : List ℝ) (target_dbfs : ℝ) :
    apply_normalization_dbfs y target_dbfs = normalizeDbfsClaim y target_dbfs := by
  unfold apply_normalization_dbfs normalizeDbfsClaim
  by_cases h1 : 0 ≤ target_dbfs
  · rw [if_pos h1, if_pos h1]
  · rw [if_neg h1, if_neg h1]
    by_cases h2 : peakAmp y < 1e-9
    · rw [if_pos h2, if_neg (not_le.mpr h2)]
    · rw [if_neg h2, if_pos (not_lt.mp h2)]

/-! ## Frequency to MIDI pitch (`app.py` lines 49-56, `freq_to_midi`) -/

/-- `freq_to_midi` (`app.py` lines 49-56): 0 for non-positive or sub-32 Hz
input, otherwise `round(69 + 12 * log2(f / 440))` — with no upper clamp. -/
noncomputable def freq_to_midi (freq : ℝ) : ℤ :=
  if freq ≤ 0 then 0
  else if freq < 32 then 0
  else round (69 + 12 * Real.logb 2 (freq / 440))

/-- **C5** (counterexample): at 14080 Hz (five octaves above A440, well
inside the audio band) `freq_to_midi` returns 129, outside `[0, 127]` —
the function has no upper clamp, so the claimed NoteEvent invariant
`midi_pitch ∈ [0,127]` fails. -/
theorem c5_freq_to_midi_counterexample :
    freq_to_midi 14080 = 129 ∧ ¬ freq_to_midi 14080 ≤ 127 := by
  have hlogb : Real.logb 2 (14080 / 440) = 5 := by
    have h32 : (14080 : ℝ) / 440 = 2 ^ (5 : ℕ) := by norm_num
    rw [h32, Real.logb_pow, Real.logb_self_eq_one (by norm_num)]
    norm_num
  have hval : freq_to_midi 14080 = 129 := by
    unfold freq_to_midi
    rw [if_neg (by norm_num), if_neg (by norm_num), hlogb]
    norm_num [round_eq]
  exact ⟨hval, by rw [hval]; norm_num⟩

/-- **C5** (amended): `freq_to_midi` returns 0 for input below 32 Hz
(including non-positive input) and `round(69 + 12 * log2(f/440))`
otherwise; the result is always ≥ 0 (so the lower bound of the claimed
range holds), but it is not bounded by 127. -/
theorem c5_freq_to_midi_nonneg (f : ℝ) :
    0 ≤ freq_to_midi f ∧
    (f < 32 → freq_to_midi f = 0) ∧
    (32 ≤ f → freq_to_midi f = round (69 + 12 * Real.logb 2 (f / 440))) := by
  refine ⟨?_, ?_, ?_⟩
  · unfold freq_to_midi
    by_cases h1 : f ≤ 0
    · rw [if_pos h1]
    · rw [if_neg h1]
      by_cases h2 : f < 32
      · rw [if_pos h2]
      · rw [if_neg h2]
        have h32 : (32 : ℝ) ≤ f := not_lt.mp h2
        have hmono : Real.logb 2 (1 / 16) ≤ Real.logb 2 (f / 440) := by
          apply Real.logb_le_logb_of_le (by norm_num) (by norm_num)
          linarith
        have hlow : Real.logb 2 (1 / 16) = -4 := by
          have h16 : ((1 : ℝ) / 16) = ((2 : ℝ) ^ (4 : ℕ))⁻¹ := by norm_num
          rw [h16, Real.logb_inv, Real.logb_pow, Real.logb_self_eq_one (by norm_num)]
          norm_num
        have hge : (21 : ℝ) ≤ 69 + 12 * Real.logb 2 (f / 440) := by
          rw [hlow] at hmono
          linarith
        rw [round_eq]
        exact Int.floor_nonneg.mpr (by linarith)
  · intro h2
    unfold freq_to_midi
    by_cases h1 : f ≤ 0
    · rw [if_pos h1]
    · rw [if_neg h1, if_pos h2]
  · intro h32
    unfold freq_to_midi
    rw [if_neg (by linarith), if_neg (by linarith)]

/-- **C5** witness: 1000 Hz and 10 Hz instantiate the three parts (10 Hz
is below the 32 Hz floor, 1000 Hz takes the rounding branch). -/
theorem c5_freq_to_midi_nonneg_witness :
    0 ≤ freq_to_midi 1000 ∧ ((10 : ℝ) < 32 ∧ freq_to_midi 10 = 0) ∧
    ((32 : ℝ) ≤ 1000 ∧
      freq_to_midi 1000 = round (69 + 12 * Real.logb 2 (1000 / 440))) :=
  ⟨(c5_freq_to_midi_nonneg 1000).1,
   ⟨by norm_num, (c5_freq_to_midi_nonneg 10).2.1 (by norm_num)⟩,
   ⟨by norm_num, (c5_freq_to_midi_nonneg 1000).2.2 (by norm_num)⟩⟩

/-! ## Per-stem error isolation (`app.py` lines 567-742 `slice_stem_real`,
lines 771-803 `slice_all_and_zip`).  The DSP body of `slice_stem_real` is
abstracted as a function `body` returning `Except` — `.error` models any
exception the body raises; what matters for the claim is the control flow
around it, which is embedded exactly: the `None` guard and the
`try`/`except` returning `([], None)` in `slice_stem_real`, and the loop
over the non-`None` stems accumulating `all_sliced_files` in
`slice_all_and_zip` (which raises only when no stem is present at all). -/

/-- `slice_stem_real` (`app.py` lines 567-742): `None` input returns
`([], None)` immediately; any exception from the body is caught at the
stem boundary and also yields `([], None)` (lines 738-742). -/
def slice_stem_real {α ε : Type} (body : α → Except ε (List String × Option String))
    (stem_audio : Option α) : List String × Option String :=
  match stem_audio with
  | none => ([], none)
  | some s =>
    match body s with
    | .ok r => r
    | .error _ => ([], none)

/-- `slice_all_and_zip` (`app.py` lines 771-803) up to the archive step:
filter out `None` stems, raise (model: `.error`) if none remain, otherwise
run `slice_stem_real` on every remaining stem in order and accumulate all
returned file lists (the preview is discarded, `sliced_files, _ = ...`). -/
def slice_all_and_zip {α ε : Type} (body : α → Except ε (List String × Option String))
    (stems : List (Option α)) : Except String (List String) :=
  let valid := stems.filterMap id
  if valid.isEmpty then .error "No stems to process!"
  else .ok (valid.foldl (fun acc s => acc ++ (slice_stem_real body (some s)).1) [])

/-- The accumulating fold equals the concatenation of the per-stem
outputs. -/
theorem slice_all_foldl_eq {α ε : Type}
    (body : α → Except ε (List String × Option String)) :
    ∀ (stems : List α) (acc : List String),
      stems.foldl (fun acc s => acc ++ (slice_stem_real body (some s)).1) acc =
        acc ++ stems.flatMap (fun s => (slice_stem_real body (some s)).1) := by
  intro stems
  induction stems with
  | nil => intro acc; simp
  | cons s rest ih =>
    intro acc
    simp only [List.foldl_cons, List.flatMap_cons, ih]
    simp [List.append_assoc]

/-- **C8**: if the body raises on one stem, `slice_stem_real` returns an
empty file list and no preview for that stem, and `slice_all_and_zip`
still processes every remaining stem — the batch output is exactly the
concatenation of the outputs of the stems before and after the failing
one. -/
theorem c8_per_stem_error_isolation {α ε : Type}
    (body : α → Except ε (List String × Option String))
    (bad : α) (e : ε) (before after : List α)
    (hbad : body bad = .error e) :
    slice_stem_real body (some bad) = ([], none) ∧
    slice_all_and_zip body
        ((before.map some ++ [some bad]) ++ after.map some) =
      .ok (before.flatMap (fun s => (slice_stem_real body (some s)).1) ++
           after.flatMap (fun s => (slice_stem_real body (some s)).1)) := by
  have hb : slice_stem_real body (some bad) = ([], none) := by
    simp [slice_stem_real, hbad]
  refine ⟨hb, ?_⟩
  unfold slice_all_and_zip
  have hvalid : ((before.map some ++ [some bad]) ++ after.map some).filterMap id =
      (before ++ [bad]) ++ after := by
    simp [List.filterMap_append, List.filterMap_map]
  rw [hvalid]
  rw [if_neg (by simp)]
  rw [slice_all_foldl_eq]
  simp [List.flatMap_append, hb]

/-- **C8** witness: a concrete body failing exactly on "drums": the other
two stems of the batch still deliver their files. -/
theorem c8_per_stem_error_isolation_witness :
    (fun s : String => if s = "drums" then (.error "boom" : Except String (List String × Option String))
      else .ok (["out_" ++ s ++ ".wav"], none)) "drums" = .error "boom" ∧
    slice_stem_real
        (fun s : String => if s = "drums" then (.error "boom" : Except String (List String × Option String))
          else .ok (["out_" ++ s ++ ".wav"], none))
        (some "drums") = ([], none) ∧
    slice_all_and_zip
        (fun s : String => if s = "drums" then (.error "boom" : Except String (List String × Option String))
          else .ok (["out_" ++ s ++ ".wav"], none))
        ((["vocals"].map some ++ [some "drums"]) ++ ["bass"].map some) =
      .ok ["out_vocals.wav", "out_bass.wav"] := by
  have h := c8_per_stem_error_isolation
    (fun s : String => if s = "drums" then (.error "boom" : Except String (List String × Option String))
      else .ok (["out_" ++ s ++ ".wav"], none))
    "drums" "boom" ["vocals"] ["bass"] rfl
  refine ⟨rfl, h.1, ?_⟩
  rw [h.2]
  rfl

/-! ## Pan / level modulation (`app.py` lines 207-254, `apply_modulation`).
Samples are stereo pairs (the source converts mono input to stereo before
this point); the LFO sample times come from
`np.linspace(0, duration_sec, N, endpoint=False)`, whose `n`-th entry is
`n * (duration_sec / N)`. -/

/-- `rate_map.get(rate, 1)` (`app.py` line 217). -/
def rate_map (rate : String) : ℝ :=
  if rate = "1/2" then 0.5
  else if rate = "1/4" then 1
  else if rate = "1/8" then 2
  else if rate = "1/16" then 4
  else 1

/-- `lfo_freq_hz = (bpm / 60.0) * rate_map.get(rate, 1)` (`app.py`
line 232). -/
noncomputable def lfoFreqHz (bpm : ℝ) (rate : String) : ℝ :=
  bpm / 60 * rate_map rate

/-- `apply_modulation` (`app.py` lines 207-254) on a stereo buffer: the
panning stage multiplies left and right by `(1 ∓ pan_lfo)/2` when
`pan_depth > 0`, then the tremolo stage multiplies both channels by
`(1 - depth) + depth * level_lfo` when `level_depth > 0`; a zero depth
skips its stage entirely. -/
noncomputable def apply_modulation (y : List (ℝ × ℝ)) (sr : ℕ) (bpm : ℝ)
    (rate : String) (pan_depth level_depth : ℝ) : List (ℝ × ℝ) :=
  let N := y.length
  let duration_sec := (N : ℝ) / sr
  let lfo := lfoFreqHz bpm rate
  let t : ℕ → ℝ := fun n => n * (duration_sec / N)
  let y1 :=
    if 0 < pan_depth then
      y.mapIdx fun n s =>
        (s.1 * ((1 - Real.sin (2 * Real.pi * lfo * t n) * pan_depth) / 2),
         s.2 * ((1 + Real.sin (2 * Real.pi * lfo * t n) * pan_depth) / 2))
    else y
  if 0 < level_depth then
    y1.mapIdx fun n s =>
      (s.1 * ((1 - level_depth) +
        level_depth * ((Real.sin (2 * Real.pi * lfo * t n) + 1) / 2)),
       s.2 * ((1 - level_depth) +
        level_depth * ((Real.sin (2 * Real.pi * lfo * t n) + 1) / 2)))
  else y1

/-- The pan LFO sample at index `n`: `sin(2π f (n / sr))`. -/
noncomputable def panLfoSample (sr : ℕ) (bpm : ℝ) (rate : String) (n : ℕ) : ℝ :=
  Real.sin (2 * Real.pi * lfoFreqHz bpm rate * (n / sr))

/-- The claim's statement about the pan stage, as one predicate: with
depth `p` and tremolo off, (i) the output applies exactly the gains
`(1 - p·sin(2πft))/2` and `(1 + p·sin(2πft))/2` per sample; (ii) the two
gains sum to 1 at every sample; (iii) each gain is at most `(1+p)/2 ≤ 1`;
(iv) per sample, the output tends to half the unmodulated sample as the
depth tends to 0 from above; (v) depth 0 skips panning entirely (whence
the discontinuity in depth at 0 for any non-zero input). -/
noncomputable def panModulationSpec (y : List (ℝ × ℝ)) (sr : ℕ) (bpm : ℝ)
    (rate : String) (p : ℝ) : Prop :=
  (∀ n : ℕ, (apply_modulation y sr bpm rate p 0)[n]? =
      (y[n]?).map fun s =>
        (s.1 * ((1 - panLfoSample sr bpm rate n * p) / 2),
         s.2 * ((1 + panLfoSample sr bpm rate n * p) / 2))) ∧
  (∀ n : ℕ, (1 - panLfoSample sr bpm rate n * p) / 2 +
      (1 + panLfoSample sr bpm rate n * p) / 2 = 1) ∧
  (∀ n : ℕ, (1 - panLfoSample sr bpm rate n * p) / 2 ≤ (1 + p) / 2 ∧
      (1 + panLfoSample sr bpm rate n * p) / 2 ≤ (1 + p) / 2) ∧
  (1 + p) / 2 ≤ 1 ∧
  (∀ n : ℕ, ∀ s : ℝ × ℝ, y[n]? = some s →
    Filter.Tendsto
      (fun q : ℝ => ((apply_modulation y sr bpm rate q 0)[n]?.getD (0, 0)).1)
      (nhdsWithin 0 (Set.Ioi 0)) (nhds (s.1 / 2)) ∧
    Filter.Tendsto
      (fun q : ℝ => ((apply_modulation y sr bpm rate q 0)[n]?.getD (0, 0)).2)
      (nhdsWithin 0 (Set.Ioi 0)) (nhds (s.2 / 2))) ∧
  apply_modulation y sr bpm rate 0 0 = y

/-- With tremolo off and positive pan depth, `apply_modulation` is the
per-sample pan gain map. -/
theorem apply_modulation_pan_pos (y : List (ℝ × ℝ)) (sr : ℕ) (bpm : ℝ)
    (rate : String) (q : ℝ) (hq : 0 < q) :
    apply_modulation y sr bpm rate q 0 =
      y.mapIdx fun n s =>
        (s.1 * ((1 - Real.sin (2 * Real.pi * lfoFreqHz bpm rate *
          (n * ((y.length / sr : ℝ) / y.length))) * q) / 2),
         s.2 * ((1 + Real.sin (2 * Real.pi * lfoFreqHz bpm rate *
          (n * ((y.length / sr : ℝ) / y.length))) * q) / 2)) := by
  simp only [apply_modulation]
  rw [if_neg (lt_irrefl (0 : ℝ)), if_pos hq]

/-- Inside the buffer, the linspace time `n * ((N/sr)/N)` is `n / sr`. -/
theorem linspace_time_eq (N n sr : ℕ) (hn : n < N) :
    (n : ℝ) * (((N : ℝ) / sr) / N) = (n : ℝ) / sr := by
  have hN : (N : ℝ) ≠ 0 := Nat.cast_ne_zero.mpr (by omega)
  rw [div_div, mul_comm (sr : ℝ) (N : ℝ), ← div_div, div_self hN, mul_one_div]

/-- `List.mapIdx` only evaluates its function at indices inside the list. -/
theorem mapIdx_congr_lt {α β : Type} (l : List α) (f g : ℕ → α → β)
    (h : ∀ n, n < l.length → ∀ a, f n a = g n a) : l.mapIdx f = l.mapIdx g := by
  apply List.ext_getElem?
  intro n
  rw [mapIdx_getElem?, mapIdx_getElem?]
  rcases hlt : l[n]? with - | a
  · rfl
  · have hn : n < l.length := by
      by_contra hcon
      rw [List.getElem?_eq_none (not_lt.mp hcon)] at hlt
      exact Option.noConfusion hlt
    rw [Option.map, Option.map, h n hn a]

/-- With tremolo off and positive pan depth, `apply_modulation` applies
exactly the claimed per-sample gains at times `n / sr`. -/
theorem apply_modulation_pan_gains (y : List (ℝ × ℝ)) (sr : ℕ) (bpm : ℝ)
    (rate : String) (q : ℝ) (hq : 0 < q) :
    apply_modulation y sr bpm rate q 0 =
      y.mapIdx fun n s =>
        (s.1 * ((1 - panLfoSample sr bpm rate n * q) / 2),
         s.2 * ((1 + panLfoSample sr bpm rate n * q) / 2)) := by
  rw [apply_modulation_pan_pos y sr bpm rate q hq]
  apply mapIdx_congr_lt
  intro n hn a
  rw [linspace_time_eq y.length n sr hn]
  rfl

/-- **C9**: the pan-stage gains of `apply_modulation`. -/
theorem c9_pan_gains (y : List (ℝ × ℝ)) (sr : ℕ) (bpm : ℝ) (rate : String)
    (p : ℝ) (hp : 0 < p) (hp1 : p ≤ 1) :
    panModulationSpec y sr bpm rate p := by
  have hsin : ∀ n : ℕ, -1 ≤ panLfoSample sr bpm rate n ∧
      panLfoSample sr bpm rate n ≤ 1 := fun n =>
    ⟨Real.neg_one_le_sin _, Real.sin_le_one _⟩
  refine ⟨?_, ?_, ?_, ?_, ?_, ?_⟩
  · intro n
    rw [apply_modulation_pan_gains y sr bpm rate p hp, mapIdx_getElem?]
  · intro n; ring
  · intro n
    constructor
    · have := (hsin n).1
      nlinarith
    · have := (hsin n).2
      nlinarith
  · linarith
  · intro n s hs
    have hn : n < y.length := by
      by_contra hcon
      rw [List.getElem?_eq_none (not_lt.mp hcon)] at hs
      exact Option.noConfusion hs
    have heq : ∀ q ∈ Set.Ioi (0 : ℝ),
        (apply_modulation y sr bpm rate q 0)[n]?.getD (0, 0) =
          (s.1 * ((1 - panLfoSample sr bpm rate n * q) / 2),
           s.2 * ((1 + panLfoSample sr bpm rate n * q) / 2)) := by
      intro q hq
      rw [apply_modulation_pan_gains y sr bpm rate q hq, mapIdx_getElem?, hs]
      rfl
    have hcont1 : Filter.Tendsto
        (fun q : ℝ => s.1 * ((1 - panLfoSample sr bpm rate n * q) / 2))
        (nhdsWithin 0 (Set.Ioi 0)) (nhds (s.1 / 2)) := by
      have : Continuous
          (fun q : ℝ => s.1 * ((1 - panLfoSample sr bpm rate n * q) / 2)) := by
        continuity
      have h0 := this.tendsto 0
      have hv : s.1 * ((1 - panLfoSample sr bpm rate n * 0) / 2) = s.1 / 2 := by
        ring
      rw [hv] at h0
      exact h0.mono_left nhdsWithin_le_nhds
    have hcont2 : Filter.Tendsto
        (fun q : ℝ => s.2 * ((1 + panLfoSample sr bpm rate n * q) / 2))
        (nhdsWithin 0 (Set.Ioi 0)) (nhds (s.2 / 2)) := by
      have : Continuous
          (fun q : ℝ => s.2 * ((1 + panLfoSample sr bpm rate n * q) / 2)) := by
        continuity
      have h0 := this.tendsto 0
      have hv : s.2 * ((1 + panLfoSample sr bpm rate n * 0) / 2) = s.2 / 2 := by
        ring
      rw [hv] at h0
      exact h0.mono_left nhdsWithin_le_nhds
    constructor
    · refine Filter.Tendsto.congr' ?_ hcont1
      filter_upwards [self_mem_nhdsWithin] with q hq
      rw [heq q hq]
    · refine Filter.Tendsto.congr' ?_ hcont2
      filter_upwards [self_mem_nhdsWithin] with q hq
      rw [heq q hq]
  · simp [apply_modulation]

/-- **C9** witness: a concrete stereo one-sample buffer at depth 1/2. -/
theorem c9_pan_gains_witness :
    (0 : ℝ) < 1/2 ∧ (1/2 : ℝ) ≤ 1 ∧
    panModulationSpec [((1 : ℝ), (2 : ℝ))] 4 120 "1/4" (1/2) :=
  ⟨by norm_num, by norm_num,
   c9_pan_gains [((1 : ℝ), (2 : ℝ))] 4 120 "1/4" (1/2) (by norm_num) (by norm_num)⟩

/-! ## Filter modulation (`app.py` lines 274-342,
`apply_filter_modulation`).  The scipy collaborators are abstracted at
their call boundary: `butterC` stands for
`signal.butter(2, cutoff, btype, fs=sr)` (a normalized 2nd-order
coefficient set per cutoff) and `zi0` for the
`signal.lfilter_zi(...)` initial state; `signal.lfilter(b, a, frame,
zi=zi)` itself is the documented direct-form-II-transposed recurrence,
embedded exactly as `lfilterRun`.  One channel is embedded (the source
runs the identical loop per channel with independent state). -/

/-- A normalized 2nd-order filter section (`a0 = 1`, as returned by
`signal.butter`). -/
structure Biquad where
  b0 : ℝ
  b1 : ℝ
  b2 : ℝ
  a1 : ℝ
  a2 : ℝ

/-- `signal.lfilter(b, a, x, zi=st)` for a 2nd-order section: the
direct-form-II-transposed recurrence
`y[n] = b0 x[n] + z1`, `z1 := b1 x[n] + z2 - a1 y[n]`,
`z2 := b2 x[n] - a2 y[n]`, returning the outputs and the final state. -/
def lfilterRun (c : Biquad) : (ℝ × ℝ) → List ℝ → List ℝ × (ℝ × ℝ)
  | st, [] => ([], st)
  | st, x :: xs =>
    let yn := c.b0 * x + st.1
    let st1 : ℝ × ℝ := (c.b1 * x + st.2 - c.a1 * yn, c.b2 * x - c.a2 * yn)
    let r := lfilterRun c st1 xs
    (yn :: r.1, r.2)

/-- Split a list into chunks of `k` (the source's
`for frame_start in range(0, N, frame_size)` slicing; for an empty buffer
the source's `range(0, 0, 0)` would raise — that case is excluded upstream
by the caller's empty-buffer guard and is modelled as "no frames"). -/
def chunkList {α : Type} (k : ℕ) (l : List α) : List (List α) :=
  if k = 0 ∨ l.isEmpty then [] else l.take k :: chunkList k (l.drop k)
termination_by l.length
decreasing_by
  rename_i h
  push_neg at h
  have h1 : 0 < k := Nat.pos_of_ne_zero h.1
  have h2 : 0 < l.length := List.length_pos.mpr (by
    intro hnil
    exact h.2 (by simp [hnil]))
  simpa using Nat.sub_lt h2 h1

/-- `np.mean` of a frame. -/
noncomputable def meanR (l : List ℝ) : ℝ := l.sum / l.length

/-- `np.clip(x, lo, hi)` on a scalar. -/
noncomputable def clipR (lo hi x : ℝ) : ℝ := max lo (min hi x)

/-- The source's per-frame loop (`app.py` lines 318-340): for each frame,
recompute the coefficients from the frame's mean cutoff, filter the frame
with the carried state `zi`, and continue with the state the filter
returns. -/
noncomputable def framePass (butterC : ℝ → Biquad) :
    List (List ℝ × List ℝ) → (ℝ × ℝ) → List ℝ
  | [], _ => []
  | fp :: rest, zi =>
    let c := butterC (meanR fp.2)
    let r := lfilterRun c zi fp.1
    r.1 ++ framePass butterC rest r.2

/-- `apply_filter_modulation` (`app.py` lines 274-342), one channel:
early exit when `depth == 0` or the filter type is "None"; otherwise build
the per-sample clipped cutoff track from the `[0,1]` LFO and run the
512-sample frame loop with carried state, coefficients from each frame's
mean cutoff. -/
noncomputable def apply_filter_modulation (butterC : ℝ → Biquad)
    (zi0 : ℝ × ℝ) (sr : ℕ) (bpm : ℝ) (rate : String) (filter_type : String)
    (freq depth : ℝ) (y : List ℝ) : List ℝ :=
  if depth = 0 ∨ filter_type = "None" then y
  else
    let N := y.length
    let lfo := lfoFreqHz bpm rate
    let t : ℕ → ℝ := fun n => n * (((N : ℝ) / sr) / N)
    let cutoffs := (List.range N).map fun n =>
      clipR 20 ((sr : ℝ) / 2 - 100)
        (freq + ((Real.sin (2 * Real.pi * lfo * t n) + 1) / 2) * depth)
    let frame_size := if N < 512 then N else 512
    framePass butterC ((chunkList frame_size y).zip (chunkList frame_size cutoffs)) zi0

/-- Structural facts true of every 2nd-order Butterworth low-pass section
at a genuine cutoff: the numerator is `b0 * (1, 2, 1)` with `b0 > 0`
(the analog prototype `1/(s² + √2 s + 1)` maps under the bilinear
transform to a numerator proportional to `(1 + z⁻¹)²`), and the section is
stable, so the pole product `a2` satisfies `|a2| < 1`. -/
def butterworthLP2Shaped (c : Biquad) : Prop :=
  0 < c.b0 ∧ c.b1 = 2 * c.b0 ∧ c.b2 = c.b0 ∧ |c.a2| < 1

/-- The claim's reference computation: a single whole-buffer filter pass
(zero initial state). -/
noncomputable def wholeBufferPass (c : Biquad) (y : List ℝ) : List ℝ :=
  (lfilterRun c (0, 0) y).1

/-- **C4** (counterexample): with depth 0 the source returns its input
unchanged (early exit), and no 2nd-order Butterworth low-pass can
reproduce that: on the unit impulse `[1,0,0,0]` the function output is the
impulse itself, but matching it would force `b0 = 1`, `a1 = 2`, `a2 = 1`,
contradicting stability (`|a2| < 1`). -/
theorem c4_depth0_counterexample :
    ¬ ∃ c : Biquad, butterworthLP2Shaped c ∧
      apply_filter_modulation (fun _ => ⟨1, 0, 0, 0, 0⟩) (0, 0) 44100 120
          "1/4" "Low-pass" 5000 0 [1, 0, 0, 0] =
        wholeBufferPass c [1, 0, 0, 0] := by
  rintro ⟨c, ⟨hb0, hb1, hb2, ha2⟩, heq⟩
  have hlhs : apply_filter_modulation (fun _ => (⟨1, 0, 0, 0, 0⟩ : Biquad))
      (0, 0) 44100 120 "1/4" "Low-pass" 5000 0 [1, 0, 0, 0] = [1, 0, 0, 0] := by
    unfold apply_filter_modulation
    rw [if_pos (Or.inl rfl)]
  rw [hlhs] at heq
  unfold wholeBufferPass at heq
  simp only [lfilterRun, List.cons.injEq, and_true] at heq
  obtain ⟨h1, h2, h3, h4⟩ := heq
  have habs := abs_lt.mp ha2
  have hb0_1 : c.b0 = 1 := by linarith
  rw [hb1] at h2 h3
  rw [hb2] at h3
  rw [hb0_1] at h2 h3
  have ha1 : c.a1 = 2 := by ring_nf at h2; linarith
  rw [ha1] at h3
  ring_nf at h3
  linarith [habs.2]

/-- Filtering a concatenation with carried state equals filtering the
pieces in sequence, threading the final state of each piece into the
next. -/
theorem lfilterRun_append (c : Biquad) (st : ℝ × ℝ) (xs ys : List ℝ) :
    lfilterRun c st (xs ++ ys) =
      ((lfilterRun c st xs).1 ++ (lfilterRun c (lfilterRun c st xs).2 ys).1,
       (lfilterRun c (lfilterRun c st xs).2 ys).2) := by
  induction xs generalizing st with
  | nil => simp [lfilterRun]
  | cons x xs ih => simp [lfilterRun, ih]

/-- Frame boundaries introduce no discontinuity: when every frame has the
same mean cutoff, the frame-by-frame pass with carried state equals the
single whole-buffer pass at those coefficients. -/
theorem framePass_const (butterC : ℝ → Biquad) (co : ℝ) (zi : ℝ × ℝ)
    (pairs : List (List ℝ × List ℝ)) (hconst : ∀ p ∈ pairs, meanR p.2 = co) :
    framePass butterC pairs zi =
      (lfilterRun (butterC co) zi (pairs.map Prod.fst).flatten).1 := by
  induction pairs generalizing zi with
  | nil => simp [framePass, lfilterRun]
  | cons p rest ih =>
    simp only [framePass, List.map_cons, List.flatten_cons]
    rw [hconst p (List.mem_cons_self _ _), lfilterRun_append]
    rw [ih _ (fun q hq => hconst q (List.mem_cons_of_mem _ hq))]

/-- **C4** (amended): with modulation depth 0 (for any filter type),
`apply_filter_modulation` returns its input unchanged — the early exit
fires before any filtering; the constant-cutoff single-pass equivalence
the claim describes holds instead of the filtering core: when every frame
has the same mean cutoff, the frame-chunked pass with carried state equals
the single whole-buffer pass at those coefficients exactly. -/
theorem c4_filter_modulation_depth0 (butterC : ℝ → Biquad) (zi0 : ℝ × ℝ)
    (sr : ℕ) (bpm : ℝ) (rate : String) (filter_type : String) (freq : ℝ)
    (y : List ℝ) (co : ℝ) (zi : ℝ × ℝ) (pairs : List (List ℝ × List ℝ))
    (hconst : ∀ p ∈ pairs, meanR p.2 = co) :
    apply_filter_modulation butterC zi0 sr bpm rate filter_type freq 0 y = y ∧
    framePass butterC pairs zi =
      (lfilterRun (butterC co) zi (pairs.map Prod.fst).flatten).1 := by
  constructor
  · unfold apply_filter_modulation
    rw [if_pos (Or.inl rfl)]
  · exact framePass_const butterC co zi pairs hconst

/-- **C4** witness: two concrete frames with the same mean cutoff 100 and
a concrete coefficient map. -/
theorem c4_filter_modulation_depth0_witness :
    (∀ p ∈ [([(1 : ℝ), 2], [(100 : ℝ), 100]), ([3], [100])], meanR p.2 = 100) ∧
    apply_filter_modulation (fun _ => ⟨1/2, 1, 1/2, 0, 0⟩) (0, 0) 44100 120
        "1/4" "Low-pass" 5000 0 [1, 2, 3] = [1, 2, 3] ∧
    framePass (fun _ => (⟨1/2, 1, 1/2, 0, 0⟩ : Biquad))
        [([(1 : ℝ), 2], [(100 : ℝ), 100]), ([3], [100])] (0, 0) =
      (lfilterRun ((fun _ => (⟨1/2, 1, 1/2, 0, 0⟩ : Biquad)) (100 : ℝ)) (0, 0)
        ([([(1 : ℝ), 2], [(100 : ℝ), 100]), ([3], [100])].map Prod.fst).flatten).1 := by
  have hconst : ∀ p ∈ [([(1 : ℝ), 2], [(100 : ℝ), 100]), ([3], [100])],
      meanR p.2 = 100 := by
    intro p hp
    fin_cases hp <;> norm_num [meanR]
  have h := c4_filter_modulation_depth0 (fun _ => (⟨1/2, 1, 1/2, 0, 0⟩ : Biquad))
    (0, 0) 44100 120 "1/4" "Low-pass" 5000 [1, 2, 3] 100 (0, 0)
    [([(1 : ℝ), 2], [(100 : ℝ), 100]), ([3], [100])] hconst
  exact ⟨hconst, h.1, h.2⟩

/-- **C2** (code bug): `encode_delta_time` is documented as the MIDI
variable-length quantity, but it emits the base-128 groups
least-significant first.  At 128 ticks it produces `[0x80, 0x01]` whereas
the standard VLQ (groups most-significant first, continuation bit on all
but the final byte) is `[0x81, 0x00]`; a standard decoder reads the
source's bytes back as 1, not 128. -/
theorem c2_encode_delta_time_not_standard_vlq :
    encode_delta_time 128 = [128, 1] ∧ midiVLQ 128 = [129, 0] ∧
    encode_delta_time 128 ≠ midiVLQ 128 := by
  refine ⟨by decide, by decide, by decide⟩

end IsoLo
